import Mathlib

/-!
Verification of the CSV sanitization / normalization pipeline of
`streamlit_app.py` (Statement_Converter).

The Python core consists of:
* `clean_csv_text` — line filter driven by `FENCE_RE` and `COMMENT_RE`;
* `normalise_amount` — amount canonicalization driven by `PAREN_RE`;
* `normalise_date` — date canonicalization via `dateutil.parser.parse`;
* `robust_parse` — `csv.reader`-based row extraction using the above.

Python string/regex/csv semantics are embedded as executable Lean functions
over `List Char` / `String`.  Regular-expression matching is embedded by its
declarative semantics: a string matches iff there exists a decomposition into
the pattern's pieces (all searches are bounded, hence decidable/executable).
`csv.reader` is embedded as the CPython `_csv` dialect state machine
(delimiter `,`, quotechar `"`, doublequote, non-strict), including its
"line contains NUL" and field-size-limit error conditions.
-/

/-- Python `str.isspace` / regex `\s` character class (the Unicode whitespace
set used by CPython for `str.strip` and `re` `\s` on `str` patterns). -/
def isSpaceChar (c : Char) : Bool :=
  c == ' ' || c == '\t' || c == '\n' || c == '\r' || c == '\x0b' || c == '\x0c' ||
  c == '\x1c' || c == '\x1d' || c == '\x1e' || c == '\x1f' || c == '\x85' ||
  c == '\xa0' || c == ' ' || (' ' ≤ c && c ≤ ' ') ||
  c == ' ' || c == ' ' || c == ' ' || c == ' ' || c == '　'

/-- Line-break characters recognized by Python `str.splitlines`
(`\r\n` is additionally treated as a single break by `pySplitlines`). -/
def isBreakChar (c : Char) : Bool :=
  c == '\n' || c == '\r' || c == '\x0b' || c == '\x0c' ||
  c == '\x1c' || c == '\x1d' || c == '\x1e' || c == '\x85' ||
  c == ' ' || c == ' '

/-- Python `str.strip()` on a character list. -/
def pyStripChars (l : List Char) : List Char :=
  ((l.dropWhile isSpaceChar).reverse.dropWhile isSpaceChar).reverse

/-- Python `str.strip()`. -/
def pyStrip (s : String) : String :=
  ⟨pyStripChars s.data⟩

/-- Python `str.lower` on one character (ASCII part; the pipeline's patterns
only contain ASCII letters). -/
def pyLowerChar (c : Char) : Char :=
  if 'A' ≤ c && c ≤ 'Z' then Char.ofNat (c.toNat + 32) else c

/-- Python `str.lower` on a character list. -/
def pyLowerChars (l : List Char) : List Char :=
  l.map pyLowerChar

/-- Helper for `pySplitlines`: accumulates the current line (reversed) while
scanning.  `\r\n` counts as one line break (`prevCR` records that the
previous character was a `\r`, whose line has already been closed); every
other break character terminates a line by itself. -/
def splitlinesGo : List Char → List Char → Bool → List (List Char)
  | [], cur, _ => if cur = [] then [] else [cur.reverse]
  | c :: rest, cur, prevCR =>
    if c = '\n' then
      if prevCR then splitlinesGo rest [] false
      else cur.reverse :: splitlinesGo rest [] false
    else if c = '\r' then cur.reverse :: splitlinesGo rest [] true
    else if isBreakChar c then cur.reverse :: splitlinesGo rest [] false
    else splitlinesGo rest (c :: cur) false

/-- Python `str.splitlines()` on a character list. -/
def pySplitlines (l : List Char) : List (List Char) :=
  splitlinesGo l [] false

/-- Characters of the leading class `[\s`'"“”‘’]` of `FENCE_RE`. -/
def isFenceCls (c : Char) : Bool :=
  isSpaceChar c || c == '`' || c == '\'' || c == '"' ||
  c == '“' || c == '”' || c == '‘' || c == '’'

/-- Recognizes `csv` (case-insensitively) followed by whitespace only:
the `(?:csv)?\s*$` tail of `FENCE_RE` in the case where `csv` is present. -/
def csvThenSpaces (l : List Char) : Bool :=
  match l with
  | c :: s :: v :: rest =>
    pyLowerChar c == 'c' && pyLowerChar s == 's' && pyLowerChar v == 'v' &&
    rest.all isSpaceChar
  | _ => false

/-- The `\s*(?:csv)?\s*$` tail of `FENCE_RE`: whitespace, an optional literal
`csv` (case-insensitive), then whitespace until the end. -/
def fenceTail (l : List Char) : Bool :=
  l.all isSpaceChar ||
  (List.range (l.length + 1)).any fun k =>
    (l.take k).all isSpaceChar && csvThenSpaces (l.drop k)

/-- The middle-plus-tail part of `FENCE_RE`: an optional homogeneous run of
three or more backticks / straight quotes, then `fenceTail`. -/
def fenceRun (l : List Char) : Bool :=
  fenceTail l ||
  ['`', '\'', '"'].any fun q =>
    (List.range (l.length + 1)).any fun m =>
      3 ≤ m && m ≤ l.length && (l.take m).all (· == q) && fenceTail (l.drop m)

/-- Declarative semantics of
`FENCE_RE = ^[\s`'"“”‘’]{0,5}(?:`{3,}|'{3,}|"{3,})?\s*(?:csv)?\s*$` (with
`re.I`): the line matches iff it decomposes into at most five
whitespace/backtick/quote characters, an optional run of three or more
backticks or straight quotes, optional whitespace, an optional `csv` token,
and trailing whitespace. -/
def fenceMatch (l : List Char) : Bool :=
  (List.range 6).any fun k => (l.take k).all isFenceCls && fenceRun (l.drop k)

/-- Case-insensitive prefix test (ASCII regex literal vs. line). -/
def startsCaseless (l : List Char) (pat : List Char) : Bool :=
  pat.isPrefixOf (pyLowerChars (l.take pat.length))

/-- Declarative semantics of `COMMENT_RE = ^\s*(here\s+is|note:)` (with
`re.I`): after optional leading whitespace the line starts with `note:` or
with `here`, at least one whitespace character, and `is`. -/
def commentMatch (l : List Char) : Bool :=
  let r := l.dropWhile isSpaceChar
  startsCaseless r ['n', 'o', 't', 'e', ':'] ||
  (startsCaseless r ['h', 'e', 'r', 'e'] &&
    !((r.drop 4).takeWhile isSpaceChar).isEmpty &&
    startsCaseless ((r.drop 4).dropWhile isSpaceChar) ['i', 's'])

/-- The per-line keep condition of `clean_csv_text`:
`l.strip() and not (FENCE_RE.match(l) or COMMENT_RE.match(l))`. -/
def keepLine (l : List Char) : Bool :=
  !(pyStripChars l).isEmpty && !fenceMatch l && !commentMatch l

/-- `"\n".join` on character-list lines. -/
def joinNL : List (List Char) → List Char
  | [] => []
  | [l] => l
  | l :: ls => l ++ '\n' :: joinNL ls

/-- `clean_csv_text` from `streamlit_app.py`:
keeps exactly the lines whose strip is non-empty and which match neither
`FENCE_RE` nor `COMMENT_RE`, joining survivors with `\n`. -/
def clean_csv_text (txt : String) : String :=
  ⟨joinNL ((pySplitlines txt.data).filter keepLine)⟩

/-- Characters admitted by the capture group `[0-9,.]` of `PAREN_RE`. -/
def isParenNumChar (c : Char) : Bool :=
  c.isDigit || c == ',' || c == '.'

/-- The `([0-9,.]+)\s*\)$` tail of `PAREN_RE`, applied after the optional
`$` has been consumed: a non-empty numeral run, optional whitespace, and the
closing parenthesis at the end; returns the captured numeral run. -/
def parenCore (r2 : List Char) : Option (List Char) :=
  if (r2.takeWhile isParenNumChar).isEmpty then none
  else if (r2.dropWhile isParenNumChar).dropWhile isSpaceChar = [')'] then
    some (r2.takeWhile isParenNumChar)
  else none

/-- Declarative semantics of `PAREN_RE = ^\(\s*\$?([0-9,.]+)\s*\)$`:
on a match, returns the capture group.  The character classes of adjacent
regex pieces are disjoint, so greedy matching is deterministic and the
decomposition is unique. -/
def parenMatchChars (l : List Char) : Option (List Char) :=
  match l with
  | [] => none
  | c :: rest =>
    if c = '(' then
      parenCore
        (if (rest.dropWhile isSpaceChar).head? = some '$' then
          (rest.dropWhile isSpaceChar).tail
        else rest.dropWhile isSpaceChar)
    else none

/-- `normalise_amount` from `streamlit_app.py` on a character list:
remove every `,` and `$`, strip, then apply the parenthesized-negative rule
(`PAREN_RE`) or the trailing-minus rule. -/
def normaliseAmountCore (txt : List Char) : List Char :=
  match parenMatchChars txt with
  | some num => '-' :: num
  | none =>
    if txt.getLast? = some '-' then '-' :: pyStripChars txt.dropLast
    else txt

def normaliseAmountChars (raw : List Char) : List Char :=
  normaliseAmountCore (pyStripChars (raw.filter fun c => !(c == ',' || c == '$')))

/-- `normalise_amount` from `streamlit_app.py`. -/
def normalise_amount (raw : String) : String :=
  ⟨normaliseAmountChars raw.data⟩

/-- A Gregorian calendar date as held by a Python `datetime`. -/
structure PyDate where
  year : Nat
  month : Nat
  day : Nat
deriving DecidableEq, Repr

/-- Gregorian leap-year test (as in Python `calendar.isleap`). -/
def isLeapYear (y : Nat) : Bool :=
  y % 4 == 0 && (y % 100 != 0 || y % 400 == 0)

/-- Number of days of month `m` of year `y`. -/
def daysInMonth (y m : Nat) : Nat :=
  if m = 2 then (if isLeapYear y then 29 else 28)
  else if m = 4 ∨ m = 6 ∨ m = 9 ∨ m = 11 then 30
  else 31

/-- Models the `datetime` constructor: a date value is produced exactly when
year, month and day are within `datetime`'s representable ranges. -/
def mkDate (y m d : Nat) : Option PyDate :=
  if 1 ≤ y ∧ y ≤ 9999 ∧ 1 ≤ m ∧ m ≤ 12 ∧ 1 ≤ d ∧ d ≤ daysInMonth y m then
    some ⟨y, m, d⟩
  else none

/-- Tokens produced by the date-string tokenizer: maximal digit runs and
maximal letter runs; separator characters are dropped (`fuzzy=True`). -/
inductive DTok where
  | num (digits : List Char)
  | word (letters : List Char)
deriving DecidableEq, Repr

/-- Helper for `tokenizeDate`: scans one character at a time, carrying the
current (incomplete) run. -/
def tokenizeDateAux : List Char → Option DTok → List DTok
  | [], some t => [t]
  | [], none => []
  | c :: rest, cur =>
    if c.isDigit then
      match cur with
      | some (DTok.num ds) => tokenizeDateAux rest (some (.num (ds ++ [c])))
      | some t => t :: tokenizeDateAux rest (some (.num [c]))
      | none => tokenizeDateAux rest (some (.num [c]))
    else if c.isAlpha then
      match cur with
      | some (DTok.word ws) => tokenizeDateAux rest (some (.word (ws ++ [c])))
      | some t => t :: tokenizeDateAux rest (some (.word [c]))
      | none => tokenizeDateAux rest (some (.word [c]))
    else
      match cur with
      | some t => t :: tokenizeDateAux rest none
      | none => tokenizeDateAux rest none

/-- Splits a date string into maximal digit-run and letter-run tokens;
separator characters are dropped. -/
def tokenizeDate (l : List Char) : List DTok :=
  tokenizeDateAux l none

/-- Numeric value of a digit run. -/
def natOfDigits (l : List Char) : Nat :=
  l.foldl (fun a c => a * 10 + (c.toNat - 48)) 0

/-- English month names and abbreviations recognized by `dateutil`. -/
def monthNames : List (String × Nat) :=
  [("jan", 1), ("january", 1), ("feb", 2), ("february", 2), ("mar", 3),
   ("march", 3), ("apr", 4), ("april", 4), ("may", 5), ("jun", 6),
   ("june", 6), ("jul", 7), ("july", 7), ("aug", 8), ("august", 8),
   ("sep", 9), ("sept", 9), ("september", 9), ("oct", 10), ("october", 10),
   ("nov", 11), ("november", 11), ("dec", 12), ("december", 12)]

/-- Month index of a letter-run token, when it names a month. -/
def monthIndex (w : List Char) : Option Nat :=
  (monthNames.find? fun p => p.1.data == pyLowerChars w).map (·.2)

/-- `dateutil` two-digit-year resolution: a year below 100 whose token did
not carry an explicit century is mapped into the century of the default
year, then adjusted by ±100 to land within 50 years of it. -/
def convertYear (defaultYear : Nat) (v : Nat) (centSpecified : Bool) : Nat :=
  if v < 100 && !centSpecified then
    let y := defaultYear / 100 * 100 + v
    if (if y < defaultYear then defaultYear - y else y - defaultYear) ≥ 50 then
      (if y < defaultYear then y + 100 else y - 100)
    else y
  else v

/-- A numeric date token: its value and its digit count. -/
structure NumTok where
  val : Nat
  len : Nat
deriving DecidableEq, Repr

/-- Models the token-assignment (`ymd` resolution) logic of
`dateutil.parser` with `dayfirst=False`: from the numeric tokens and at most
one month-name token, produce the (year, month, day) candidate, filling
missing components from the default date.  This covers the plain numeric and
month-name date shapes; token shapes outside this subset (times, ISO
compounds, ...) are treated as parse failures. -/
def assignDate (dflt : PyDate) (nums : List NumTok) (mons : List Nat) :
    Option (Nat × Nat × Nat) :=
  match mons, nums with
  | [], [] => none
  | [m], [] => some (dflt.year, m, dflt.day)
  | [m], [a] =>
    if a.len = 4 then some (a.val, m, dflt.day)
    else if a.val > 31 then some (convertYear dflt.year a.val false, m, dflt.day)
    else some (dflt.year, m, a.val)
  | [m], [a, b] =>
    if a.len = 4 then some (a.val, m, b.val)
    else if b.len = 4 then some (b.val, m, a.val)
    else some (convertYear dflt.year b.val false, m, a.val)
  | [], [a] =>
    if a.len = 4 then some (a.val, dflt.month, dflt.day)
    else if a.val ≤ 31 then some (dflt.year, dflt.month, a.val)
    else some (convertYear dflt.year a.val false, dflt.month, dflt.day)
  | [], [a, b] =>
    if a.len = 4 then
      if b.val ≤ 12 then some (a.val, b.val, dflt.day)
      else some (a.val, dflt.month, b.val)
    else if b.len = 4 then
      if a.val ≤ 12 then some (b.val, a.val, dflt.day)
      else some (b.val, dflt.month, a.val)
    else if a.val ≤ 12 ∧ b.val ≤ 31 then some (dflt.year, a.val, b.val)
    else if b.val ≤ 12 ∧ a.val ≤ 31 then some (dflt.year, b.val, a.val)
    else if b.val > 31 then
      if a.val ≤ 12 then some (convertYear dflt.year b.val false, a.val, dflt.day)
      else some (convertYear dflt.year b.val false, dflt.month, a.val)
    else
      if b.val ≤ 12 then some (convertYear dflt.year a.val false, b.val, dflt.day)
      else some (convertYear dflt.year a.val false, dflt.month, b.val)
  | [], [a, b, c] =>
    if a.len = 4 then
      if b.val ≤ 12 then some (a.val, b.val, c.val)
      else if c.val ≤ 12 then some (a.val, c.val, b.val)
      else none
    else
      let y := convertYear dflt.year c.val (c.len = 4)
      if a.val ≤ 12 ∧ b.val ≤ 31 then some (y, a.val, b.val)
      else if b.val ≤ 12 ∧ a.val ≤ 31 then some (y, b.val, a.val)
      else none
  | _, _ => none

/-- Models `dateutil.parser.parse(txt, dayfirst=False, fuzzy=True, default)`
(external library): tokenize, skip unrecognized words (`fuzzy`), resolve the
numeric/month tokens against the default date, and validate through the
`datetime` constructor. -/
def dateutilParse (l : List Char) (dflt : PyDate) : Option PyDate :=
  let toks := tokenizeDate l
  let nums := toks.filterMap fun t =>
    match t with
    | .num ds => some (⟨natOfDigits ds, ds.length⟩ : NumTok)
    | _ => none
  let mons := toks.filterMap fun t =>
    match t with
    | .word w => monthIndex w
    | _ => none
  match assignDate dflt nums mons with
  | some (y, m, d) => mkDate y m d
  | none => none

/-- The dash variants replaced by `/` in `normalise_date`
(U+2011 non-breaking hyphen, U+2013 en dash, U+2014 em dash, U+2212 minus). -/
def isDashVariant (c : Char) : Bool :=
  c == '‑' || c == '–' || c == '—' || c == '−'

/-- Models construction of `pd.Timestamp(f"{default_year}-01-01")`: it
succeeds exactly for years representable by a `datetime` (1..9999); outside
that range the constructor raises, which `normalise_date` turns into `""`. -/
def pdTimestampOk (y : Int) : Bool :=
  1 ≤ y && y ≤ 9999

/-- Two-digit zero-padded decimal (`strftime` `%m` / `%d`). -/
def pad2 (n : Nat) : List Char :=
  [Nat.digitChar (n / 10 % 10), Nat.digitChar (n % 10)]

/-- Four-digit zero-padded decimal (`strftime` `%Y`). -/
def pad4 (n : Nat) : List Char :=
  [Nat.digitChar (n / 1000 % 10), Nat.digitChar (n / 100 % 10),
   Nat.digitChar (n / 10 % 10), Nat.digitChar (n % 10)]

/-- `dt.strftime("%m/%d/%Y")`. -/
def formatDate (d : PyDate) : String :=
  ⟨pad2 d.month ++ '/' :: pad2 d.day ++ '/' :: pad4 d.year⟩

/-- `normalise_date` from `streamlit_app.py`: strip, fail on empty, replace
dash variants by `/`, then fuzzy-parse with `default_year-01-01` as the
default date and format as `MM/DD/YYYY`; any failure yields `""`. -/
def normalise_date (raw : String) (default_year : Int) : String :=
  if (pyStripChars raw.data).isEmpty then ""
  else if pdTimestampOk default_year then
    match
      dateutilParse
        ((pyStripChars raw.data).map fun c => if isDashVariant c then '/' else c)
        ⟨default_year.toNat, 1, 1⟩ with
    | some d => formatDate d
    | none => ""
  else ""

/-- Parser states of the CPython `_csv` reader state machine. -/
inductive CsvState where
  | startRecord
  | startField
  | inField
  | inQuoted
  | quoteInQuoted
  | eatCrnl
deriving DecidableEq, Repr

/-- Configuration of the `_csv` reader: current state, the field being
accumulated, the fields of the record being accumulated, and the finished
records. -/
structure CsvCfg where
  st : CsvState
  field : List Char
  record : List String
  out : List (List String)
deriving Repr

/-- CPython's default `csv.field_size_limit()`. -/
def csvFieldLimit : Nat := 131072

/-- `parse_add_char`: append a character to the current field, failing once
the field-size limit is reached. -/
def csvAddChar (cfg : CsvCfg) (c : Char) (st : CsvState) : Except String CsvCfg :=
  if cfg.field.length ≥ csvFieldLimit then
    Except.error "field larger than field limit (131072)"
  else Except.ok { cfg with st := st, field := cfg.field ++ [c] }

/-- `parse_save_field`: close the current field into the current record. -/
def csvSave (cfg : CsvCfg) : CsvCfg :=
  { cfg with record := cfg.record ++ [⟨cfg.field⟩], field := [] }

/-- Finish the current record (what `Reader_iternext` does when the state
machine reaches the end of a record): move it to the output. -/
def csvEmit (cfg : CsvCfg) : CsvCfg :=
  { cfg with st := .startRecord, record := [], out := cfg.out ++ [cfg.record] }

/-- The `START_FIELD` transitions of the `_csv` state machine (also entered
from `START_RECORD` on a regular character). -/
def csvStartField (cfg : CsvCfg) (c : Char) : Except String CsvCfg :=
  if c = '\n' then Except.ok (csvEmit (csvSave cfg))
  else if c = '\r' then Except.ok { csvSave cfg with st := .eatCrnl }
  else if c = '"' then Except.ok { cfg with st := .inQuoted }
  else if c = ',' then Except.ok { csvSave cfg with st := .startField }
  else csvAddChar cfg c .inField

/-- One character step of the `_csv` reader state machine (delimiter `,`,
quotechar `"`, doublequote on, escapechar off, non-strict), phrased over the
character stream: a line break in a non-quoted state finishes the record
(the per-line end-of-line marker of `Reader_iternext` is folded in).
Dispatches on the current state. -/
def csvStepOn : CsvState → CsvCfg → Char → Except String CsvCfg
  | .startRecord, cfg, c =>
    if c = '\n' then Except.ok (csvEmit cfg)
    else if c = '\r' then Except.ok { cfg with st := .eatCrnl }
    else csvStartField { cfg with st := .startField } c
  | .startField, cfg, c => csvStartField cfg c
  | .inField, cfg, c =>
    if c = '\n' then Except.ok (csvEmit (csvSave cfg))
    else if c = '\r' then Except.ok { csvSave cfg with st := .eatCrnl }
    else if c = ',' then Except.ok { csvSave cfg with st := .startField }
    else csvAddChar cfg c .inField
  | .inQuoted, cfg, c =>
    if c = '"' then Except.ok { cfg with st := .quoteInQuoted }
    else csvAddChar cfg c .inQuoted
  | .quoteInQuoted, cfg, c =>
    if c = '"' then csvAddChar cfg c .inQuoted
    else if c = ',' then Except.ok { csvSave cfg with st := .startField }
    else if c = '\n' then Except.ok (csvEmit (csvSave cfg))
    else if c = '\r' then Except.ok { csvSave cfg with st := .eatCrnl }
    else csvAddChar cfg c .inField
  | .eatCrnl, cfg, c =>
    if c = '\n' then Except.ok (csvEmit cfg)
    else if c = '\r' then Except.ok cfg
    else Except.error "new-line character seen in unquoted field"

/-- One character step on a configuration. -/
def csvStepChar (cfg : CsvCfg) (c : Char) : Except String CsvCfg :=
  csvStepOn cfg.st cfg c

/-- End-of-input handling of the `_csv` reader: a pending field/record is
closed and returned. -/
def csvFlush (cfg : CsvCfg) : List (List String) :=
  match cfg.st with
  | .startRecord => cfg.out
  | .eatCrnl => (csvEmit cfg).out
  | _ => (csvEmit (csvSave cfg)).out

/-- Runs the `_csv` state machine over the character stream.  A NUL
character in the input raises, as in CPython (`line contains NUL`). -/
def csvRun (cfg : CsvCfg) : List Char → Except String (List (List String))
  | [] => Except.ok (csvFlush cfg)
  | c :: rest =>
    if c = '\u0000' then Except.error "line contains NUL"
    else
      match csvStepChar cfg c with
      | Except.error e => Except.error e
      | Except.ok cfg2 => csvRun cfg2 rest

/-- `csv.reader(StringIO(s), delimiter=",", quotechar='"')` drained to a
list of records. -/
def csvReader (s : String) : Except String (List (List String)) :=
  csvRun ⟨.startRecord, [], [], []⟩ s.data

/-- `HEADER_PREFIXES` from `streamlit_app.py`. -/
def HEADER_PREFIXES : List String :=
  ["date", "description", "amount", "here", "note", "csv"]

/-- `row[0].strip().lower().startswith(HEADER_PREFIXES)`. -/
def headerCheck (field0 : String) : Bool :=
  HEADER_PREFIXES.any fun p =>
    p.data.isPrefixOf (pyLowerChars (pyStripChars field0.data))

/-- One output row of `robust_parse` (a row of the resulting DataFrame). -/
structure TxRow where
  date : String
  description : String
  amount : String
deriving DecidableEq, Repr

/-- `",".join` on a list of strings, at the character level. -/
def joinComma : List (List Char) → List Char
  | [] => []
  | [l] => l
  | l :: ls => l ++ ',' :: joinComma ls

/-- The per-record body of the `robust_parse` loop: skip empty records,
header/noise records and records with fewer than 3 fields; normalise the
date (dropping the record on failure) and the amount; the description is the
comma-join of the middle fields, stripped. -/
def processRecord (default_year : Int) (row : List String) : Option TxRow :=
  match row with
  | [] => none
  | first :: rest =>
    if headerCheck first then none
    else if rest.length + 1 < 3 then none
    else
      let date_raw := pyStrip first
      let amount_raw := pyStrip (rest.getLastD first)
      let description := pyStrip ⟨joinComma (rest.dropLast.map String.data)⟩
      let date_fixed := normalise_date date_raw default_year
      if date_fixed = "" then none
      else some ⟨date_fixed, description, normalise_amount amount_raw⟩

/-- `robust_parse` from `streamlit_app.py`: sanitize, read CSV records, and
keep the successfully normalised rows in encounter order.  The `Except`
layer carries the exceptions `csv.reader` can raise. -/
def robust_parse (csv_text : String) (default_year : Int) :
    Except String (List TxRow) :=
  match csvReader (clean_csv_text csv_text) with
  | Except.error e => Except.error e
  | Except.ok records => Except.ok (records.filterMap (processRecord default_year))

/-- The amount shape asserted by the spec's Transaction Row invariant:
only digits, an optional leading `-`, and at most one decimal point. -/
def claimAmountOk (s : String) : Bool :=
  let body := if s.data.head? = some '-' then s.data.tail else s.data
  body.all (fun c => c.isDigit || c == '.') && body.count '.' ≤ 1

/-- Weakened amount property actually guaranteed by `normalise_amount`:
the result contains neither `,` nor `$`. -/
def amountNoSym (s : String) : Bool :=
  s.data.all fun c => !(c == ',' || c == '$')

/-- The fence-line shape as worded by the spec: three or more backticks or
quotes, optionally preceded/followed by whitespace and an optional literal
`csv` token (the three-plus run being mandatory). -/
def claimFence (l : List Char) : Bool :=
  ['`', '\'', '"'].any fun q =>
    (List.range (l.length + 1)).any fun k =>
      (l.take k).all isSpaceChar &&
      ((List.range (l.length - k + 1)).any fun m =>
        3 ≤ m && m ≤ (l.drop k).length &&
        ((l.drop k).take m).all (· == q) && fenceTail ((l.drop k).drop m))

/-- Line-removal condition as worded by the spec for the sanitizer: blank,
or entirely fence decoration with a mandatory three-plus run, or an
explanatory-comment start. -/
def claimC2Removes (l : List Char) : Bool :=
  (pyStripChars l).isEmpty || claimFence l || commentMatch l

/-- A ten-character `MM/DD/YYYY` date string. -/
def matchesMMDDYYYY (s : String) : Bool :=
  match s.data with
  | [m1, m2, s1, d1, d2, s2, y1, y2, y3, y4] =>
    m1.isDigit && m2.isDigit && s1 == '/' && d1.isDigit && d2.isDigit &&
    s2 == '/' && y1.isDigit && y2.isDigit && y3.isDigit && y4.isDigit
  | _ => false

/-- The end-to-end raw extraction text of the spec's scenario. -/
def c4Input : String :=
  "```csv\nDate,Description,Amount\n03/01/2023,Grocery Store,-45.23\n(invalid line)\n03/02/2023,Refund,(10.00)\n```"

example : clean_csv_text "```csv\nDate,Description,Amount\n```" =
    "Date,Description,Amount" := by decide

example :
    robust_parse
      "```csv\nDate,Description,Amount\n03/01/2023,Grocery Store,-45.23\n(invalid line)\n03/02/2023,Refund,(10.00)\n```"
      2023 =
    Except.ok [⟨"03/01/2023", "Grocery Store", "-45.23"⟩,
               ⟨"03/02/2023", "Refund", "-10.00"⟩] := rfl

example : robust_parse "01/02/2023,Coffee, Tea,4.50" 2023 =
    Except.ok [⟨"01/02/2023", "Coffee, Tea", "4.50"⟩] := rfl

example : robust_parse "" 2023 = Except.ok [] := rfl

example : robust_parse "\u0000" 2023 = Except.error "line contains NUL" := rfl

example : robust_parse "01/02/2023,x,abc" 2023 =
    Except.ok [⟨"01/02/2023", "x", "abc"⟩] := rfl

example : robust_parse "01/02/2023, X ,4.50" 2023 =
    Except.ok [⟨"01/02/2023", "X", "4.50"⟩] := rfl

example : robust_parse "a,b\n01/02/2023,x,1\nDATE,D,A" 2023 =
    Except.ok [⟨"01/02/2023", "x", "1"⟩] := rfl

example : robust_parse "01/02/2023,\"Coffee, Tea\",4.50" 2023 =
    Except.ok [⟨"01/02/2023", "Coffee, Tea", "4.50"⟩] := rfl

example : normalise_amount "(1,234.56)" = "-1234.56" := by decide
example : normalise_amount "45.00-" = "-45.00" := by decide
example : normalise_amount "$2,000" = "2000" := by decide
example : normalise_amount " 12.50 " = "12.50" := by decide
example : normalise_amount "abc" = "abc" := by decide

example : normalise_date "03/15" 2023 = "03/15/2023" := by decide
example : normalise_date "" 2023 = "" := by decide
example : normalise_date "not a date" 2023 = "" := by decide
example : normalise_date "01/02/2023" 2023 = "01/02/2023" := by decide
example : normalise_date "March 5, 2021" 2023 = "03/05/2021" := by decide
example : normalise_date "2/29/2023" 2023 = "" := by decide
example : normalise_date "12‑31" 2023 = "12/31/2023" := by decide

example : clean_csv_text "a\n\"\nb" = "a\nb" := by decide

example : clean_csv_text "Here is the data:\nNote: x\ncsv\n  \nkeep" = "keep" := by
  decide

/-- C1 counterexample: the record `01/02/2023,x,abc` is emitted with amount
`"abc"`, which contains letters — violating the claim that every emitted
amount consists only of digits, an optional leading `-`, and at most one
decimal point. -/
theorem c1_amount_charset_counterexample :
    robust_parse "01/02/2023,x,abc" 2023 =
      Except.ok [⟨"01/02/2023", "x", "abc"⟩] ∧
    claimAmountOk "abc" = false :=
  ⟨rfl, by decide⟩

/-- C2 counterexample: the line consisting of a single straight double quote
is removed by `clean_csv_text` even though it is not blank, contains no
three-plus fence run, and is not a comment line — so the claim's
removal condition is not necessary. -/
theorem c2_sanitizer_iff_counterexample :
    clean_csv_text "a\n\"\nb" = "a\nb" ∧ claimC2Removes "\"".data = false :=
  ⟨rfl, by decide⟩

/-- C3 counterexample: in the record `01/02/2023, X ,4.50` the middle
fields comma-join to `" X "`, but the emitted description is the stripped
`"X"` — the join is not preserved verbatim character for character. -/
theorem c3_description_verbatim_counterexample :
    robust_parse "01/02/2023, X ,4.50" 2023 =
      Except.ok [⟨"01/02/2023", "X", "4.50"⟩] ∧
    joinComma [" X ".data] = " X ".data ∧ ("X" : String) ≠ " X " :=
  ⟨rfl, rfl, by decide⟩

/-- C3 (amended): every record accepted by the row parser has at least 3
fields, and its emitted description is exactly the comma-join of the fields
strictly between the first and the last, stripped of leading and trailing
whitespace (interior characters, commas included, preserved). -/
theorem c3_description_join_stripped (y : Int) (row : List String)
    (tx : TxRow) (h : processRecord y row = some tx) :
    3 ≤ row.length ∧
    tx.description =
      pyStrip ⟨joinComma (((row.drop 1).dropLast).map String.data)⟩ := by
  cases row with
  | nil => exact absurd h (by simp [processRecord])
  | cons first rest =>
    simp only [processRecord] at h
    split at h
    · simp at h
    · split at h
      · simp at h
      · split at h
        · simp at h
        · injection h with h
          subst h
          refine ⟨?_, rfl⟩
          simp only [List.length_cons]
          omega

theorem c3_description_join_stripped_witness :
    (⟨"01/02/2023", "Coffee, Tea", "4.50"⟩ : TxRow).description =
      pyStrip ⟨joinComma (((["01/02/2023", "Coffee", " Tea", "4.50"].drop 1).dropLast).map String.data)⟩ :=
  (c3_description_join_stripped 2023 ["01/02/2023", "Coffee", " Tea", "4.50"]
    ⟨"01/02/2023", "Coffee, Tea", "4.50"⟩ rfl).2

/-- C4 counterexample: with default year 10000 the `pd.Timestamp` default
construction fails, every date normalization returns `""`, and the same
six-line input yields zero rows — so the scenario does not hold for every
default year. -/
theorem c4_end_to_end_counterexample :
    robust_parse c4Input 10000 = Except.ok [] := rfl

/-- C4 (amended): for every default year accepted by the timestamp
constructor (1..9999), parsing the spec's six-line raw extraction text
yields exactly the two expected Transaction Rows, in this order. -/
theorem c4_end_to_end (y : Int) (h1 : 1 ≤ y) (h2 : y ≤ 9999) :
    robust_parse c4Input y =
      Except.ok [⟨"03/01/2023", "Grocery Store", "-45.23"⟩,
                 ⟨"03/02/2023", "Refund", "-10.00"⟩] := by
  have hck : pdTimestampOk y = true := by
    simp only [pdTimestampOk, Bool.and_eq_true, decide_eq_true_eq]
    exact ⟨h1, h2⟩
  have d1 : normalise_date "03/01/2023" y = "03/01/2023" := by
    have h : normalise_date "03/01/2023" y =
        if pdTimestampOk y then
          (match dateutilParse "03/01/2023".data ⟨y.toNat, 1, 1⟩ with
           | some d => formatDate d
           | none => "") else "" := rfl
    rw [h, hck, if_pos rfl,
      show dateutilParse "03/01/2023".data ⟨Int.toNat y, 1, 1⟩ =
        some ⟨2023, 3, 1⟩ from rfl]
    rfl
  have d2 : normalise_date "03/02/2023" y = "03/02/2023" := by
    have h : normalise_date "03/02/2023" y =
        if pdTimestampOk y then
          (match dateutilParse "03/02/2023".data ⟨y.toNat, 1, 1⟩ with
           | some d => formatDate d
           | none => "") else "" := rfl
    rw [h, hck, if_pos rfl,
      show dateutilParse "03/02/2023".data ⟨Int.toNat y, 1, 1⟩ =
        some ⟨2023, 3, 2⟩ from rfl]
    rfl
  have p1 : processRecord y ["Date", "Description", "Amount"] = none := rfl
  have p3 : processRecord y ["(invalid line)"] = none := rfl
  have p2 : processRecord y ["03/01/2023", "Grocery Store", "-45.23"] =
      some ⟨"03/01/2023", "Grocery Store", "-45.23"⟩ := by
    have h : processRecord y ["03/01/2023", "Grocery Store", "-45.23"] =
        if normalise_date "03/01/2023" y = "" then none
        else some ⟨normalise_date "03/01/2023" y, "Grocery Store", "-45.23"⟩ := rfl
    rw [h, d1]; rfl
  have p4 : processRecord y ["03/02/2023", "Refund", "(10.00)"] =
      some ⟨"03/02/2023", "Refund", "-10.00"⟩ := by
    have h : processRecord y ["03/02/2023", "Refund", "(10.00)"] =
        if normalise_date "03/02/2023" y = "" then none
        else some ⟨normalise_date "03/02/2023" y, "Refund", "-10.00"⟩ := rfl
    rw [h, d2]; rfl
  have hrec : csvReader (clean_csv_text c4Input) =
      Except.ok [["Date", "Description", "Amount"],
                 ["03/01/2023", "Grocery Store", "-45.23"],
                 ["(invalid line)"],
                 ["03/02/2023", "Refund", "(10.00)"]] := rfl
  unfold robust_parse
  rw [hrec]
  simp [List.filterMap_cons, p1, p2, p3, p4]

theorem c4_end_to_end_witness :
    (1 : Int) ≤ 2023 ∧ (2023 : Int) ≤ 9999 ∧
    robust_parse c4Input 2023 =
      Except.ok [⟨"03/01/2023", "Grocery Store", "-45.23"⟩,
                 ⟨"03/02/2023", "Refund", "-10.00"⟩] :=
  ⟨by decide, by decide, c4_end_to_end 2023 (by decide) (by decide)⟩

/-- C7: `robust_parse` skips every record whose first field, trimmed and
lower-cased, starts with one of the tokens `date`, `description`, `amount`,
`here`, `note`, `csv` (`headerCheck`): such a record contributes no
Transaction Row. -/
theorem c7_header_skip (y : Int) (first : String) (rest : List String)
    (h : headerCheck first = true) :
    processRecord y (first :: rest) = none := by
  simp [processRecord, h]

theorem c7_header_skip_witness :
    headerCheck "Date" = true ∧ headerCheck "dAtE" = true ∧
    processRecord 2023 ["Date", "Description", "Amount"] = none ∧
    processRecord 2023 ["dAtE", "x", "y"] = none :=
  ⟨by decide, by decide, c7_header_skip 2023 "Date" _ (by decide),
   c7_header_skip 2023 "dAtE" _ (by decide)⟩

/-- C8 counterexample: a NUL character in the input propagates to
`csv.reader`, which raises `line contains NUL` — `robust_parse` is not
exception-free for every input string. -/
theorem c8_no_raise_counterexample :
    robust_parse "\u0000" 2023 = Except.error "line contains NUL" := rfl

/-- C10: any line decomposing into at most five whitespace / backtick /
straight-or-curly-quote characters followed by an optional case-insensitive
`csv` token is removed by the sanitizer: it matches `FENCE_RE`, so its
keep condition is false. -/
theorem c10_decoration_removed (p c : List Char) (h1 : p.length ≤ 5)
    (h2 : ∀ x ∈ p, isFenceCls x = true)
    (h3 : c = [] ∨ ∃ c1 c2 c3, c = [c1, c2, c3] ∧
      pyLowerChar c1 = 'c' ∧ pyLowerChar c2 = 's' ∧ pyLowerChar c3 = 'v') :
    keepLine (p ++ c) = false := by
  have hf : fenceMatch (p ++ c) = true := by
    apply List.any_eq_true.mpr
    refine ⟨p.length, List.mem_range.mpr (by omega), ?_⟩
    rw [List.take_left, List.drop_left, Bool.and_eq_true]
    refine ⟨List.all_eq_true.mpr h2, ?_⟩
    rcases h3 with rfl | ⟨c1, c2, c3, rfl, e1, e2, e3⟩
    · decide
    · apply (Bool.or_eq_true _ _).mpr
      left
      apply (Bool.or_eq_true _ _).mpr
      right
      apply List.any_eq_true.mpr
      refine ⟨0, List.mem_range.mpr (by omega), ?_⟩
      simp [csvThenSpaces, e1, e2, e3]
  simp [keepLine, hf]

theorem c10_decoration_removed_witness :
    keepLine ("\"".data) = false ∧ keepLine ("csv".data) = false :=
  ⟨c10_decoration_removed ['"'] [] (by decide) (by decide) (Or.inl rfl),
   c10_decoration_removed [] ['c', 's', 'v'] (by decide) (by decide)
     (Or.inr ⟨'c', 's', 'v', rfl, rfl, rfl, rfl⟩)⟩

theorem splitlinesGo_nil (cur : List Char) (b : Bool) :
    splitlinesGo [] cur b = if cur = [] then [] else [cur.reverse] := rfl

theorem splitlinesGo_nl (rest cur : List Char) :
    splitlinesGo ('\n' :: rest) cur false =
      cur.reverse :: splitlinesGo rest [] false := by
  simp [splitlinesGo]

theorem splitlinesGo_nl_cr (rest cur : List Char) :
    splitlinesGo ('\n' :: rest) cur true = splitlinesGo rest [] false := by
  simp [splitlinesGo]

theorem splitlinesGo_cr (rest cur : List Char) (b : Bool) :
    splitlinesGo ('\r' :: rest) cur b =
      cur.reverse :: splitlinesGo rest [] true := by
  simp [splitlinesGo]

theorem splitlinesGo_break (c : Char) (rest cur : List Char) (b : Bool)
    (hn : c ≠ '\n') (hr : c ≠ '\r') (hb : isBreakChar c = true) :
    splitlinesGo (c :: rest) cur b =
      cur.reverse :: splitlinesGo rest [] false := by
  simp [splitlinesGo, hn, hr, hb]

theorem splitlinesGo_plain (c : Char) (rest cur : List Char) (b : Bool)
    (hb : isBreakChar c = false) :
    splitlinesGo (c :: rest) cur b = splitlinesGo rest (c :: cur) false := by
  have hn : c ≠ '\n' := by rintro rfl; simp [isBreakChar] at hb
  have hr : c ≠ '\r' := by rintro rfl; simp [isBreakChar] at hb
  simp [splitlinesGo, hn, hr, hb]

theorem splitlinesGo_append (l : List Char) :
    ∀ (cur rest : List Char), (∀ c ∈ l, isBreakChar c = false) →
      splitlinesGo (l ++ rest) cur false =
        splitlinesGo rest (l.reverse ++ cur) false := by
  induction l with
  | nil => intro cur rest _; simp
  | cons c l ih =>
    intro cur rest hnb
    have hc : isBreakChar c = false := hnb c (List.mem_cons_self _ _)
    rw [List.cons_append, splitlinesGo_plain c (l ++ rest) cur false hc,
      ih (c :: cur) rest fun x hx => hnb x (List.mem_cons_of_mem _ hx)]
    simp [List.append_assoc]

theorem splitlinesGo_nonbreak (l : List Char) (cur : List Char)
    (hnb : ∀ c ∈ l, isBreakChar c = false) :
    splitlinesGo l cur false =
      if l.reverse ++ cur = [] then [] else [cur.reverse ++ l] := by
  have h := splitlinesGo_append l cur [] hnb
  rw [List.append_nil] at h
  rw [h, splitlinesGo_nil]
  by_cases h0 : l.reverse ++ cur = []
  · rw [if_pos h0, if_pos h0]
  · rw [if_neg h0, if_neg h0]
    simp

theorem pySplitlines_joinNL (ls : List (List Char))
    (h : ∀ l ∈ ls, l ≠ [] ∧ ∀ c ∈ l, isBreakChar c = false) :
    pySplitlines (joinNL ls) = ls := by
  induction ls with
  | nil => rfl
  | cons l ls ih =>
    obtain ⟨hne, hnb⟩ := h l (List.mem_cons_self _ _)
    cases ls with
    | nil =>
      show splitlinesGo (joinNL [l]) [] false = [l]
      rw [show joinNL [l] = l from rfl, splitlinesGo_nonbreak l [] hnb]
      simp [hne]
    | cons l2 ls2 =>
      show splitlinesGo (joinNL (l :: l2 :: ls2)) [] false = l :: l2 :: ls2
      rw [show joinNL (l :: l2 :: ls2) = l ++ '\n' :: joinNL (l2 :: ls2) from rfl,
        splitlinesGo_append l [] ('\n' :: joinNL (l2 :: ls2)) hnb,
        List.append_nil, splitlinesGo_nl, List.reverse_reverse,
        show splitlinesGo (joinNL (l2 :: ls2)) [] false =
          pySplitlines (joinNL (l2 :: ls2)) from rfl,
        ih fun x hx => h x (List.mem_cons_of_mem _ hx)]

theorem splitlinesGo_piece_nonbreak (l : List Char) :
    ∀ (cur : List Char) (b : Bool), (∀ c ∈ cur, isBreakChar c = false) →
      ∀ piece ∈ splitlinesGo l cur b, ∀ c ∈ piece, isBreakChar c = false := by
  induction l with
  | nil =>
    intro cur b hcur piece hp c hc
    rw [splitlinesGo_nil] at hp
    by_cases h0 : cur = []
    · simp [h0] at hp
    · rw [if_neg h0, List.mem_singleton] at hp
      subst hp
      exact hcur c (List.mem_reverse.mp hc)
  | cons d rest ih =>
    intro cur b hcur piece hp c hc
    by_cases hdn : d = '\n'
    · subst hdn
      cases b with
      | true =>
        rw [splitlinesGo_nl_cr] at hp
        exact ih [] false (by simp) piece hp c hc
      | false =>
        rw [splitlinesGo_nl, List.mem_cons] at hp
        rcases hp with rfl | hp
        · exact hcur c (List.mem_reverse.mp hc)
        · exact ih [] false (by simp) piece hp c hc
    · by_cases hdr : d = '\r'
      · subst hdr
        rw [splitlinesGo_cr, List.mem_cons] at hp
        rcases hp with rfl | hp
        · exact hcur c (List.mem_reverse.mp hc)
        · exact ih [] true (by simp) piece hp c hc
      · by_cases hdb : isBreakChar d = true
        · rw [splitlinesGo_break d rest cur b hdn hdr hdb, List.mem_cons] at hp
          rcases hp with rfl | hp
          · exact hcur c (List.mem_reverse.mp hc)
          · exact ih [] false (by simp) piece hp c hc
        · have hdb' : isBreakChar d = false := by
            cases hv : isBreakChar d with
            | true => exact absurd hv hdb
            | false => rfl
          rw [splitlinesGo_plain d rest cur b hdb'] at hp
          refine ih (d :: cur) false ?_ piece hp c hc
          intro x hx
          rcases List.mem_cons.mp hx with rfl | hx
          · exact hdb'
          · exact hcur x hx

theorem pySplitlines_piece_nonbreak (l : List Char) (piece : List Char)
    (hp : piece ∈ pySplitlines l) : ∀ c ∈ piece, isBreakChar c = false :=
  splitlinesGo_piece_nonbreak l [] false (by simp) piece hp

theorem clean_lines (txt : String) :
    pySplitlines (clean_csv_text txt).data =
      (pySplitlines txt.data).filter keepLine := by
  show pySplitlines (joinNL ((pySplitlines txt.data).filter keepLine)) = _
  apply pySplitlines_joinNL
  intro l hl
  have hmem : l ∈ pySplitlines txt.data := List.mem_of_mem_filter hl
  have hkeep : keepLine l = true := List.of_mem_filter hl
  constructor
  · rintro rfl
    simp [keepLine, pyStripChars] at hkeep
  · exact pySplitlines_piece_nonbreak txt.data l hmem

/-- C2 (amended): `clean_csv_text` removes a line iff its strip is empty, or
it matches `FENCE_RE` (at most five whitespace/backtick/quote characters, an
*optional* run of three-plus backticks/straight quotes, optional whitespace,
optional `csv`, trailing whitespace — so short decoration-only lines are
also removed), or it matches `COMMENT_RE` (`here` + whitespace + `is`, or
`note:`, after leading whitespace, case-insensitively); all surviving lines
pass through unchanged, preserving their original order. -/
theorem c2_sanitizer_line_filter (txt : String) :
    pySplitlines (clean_csv_text txt).data =
      (pySplitlines txt.data).filter keepLine :=
  clean_lines txt

/-- C9: sanitization is idempotent:
`clean_csv_text (clean_csv_text x) = clean_csv_text x` for every input. -/
theorem c9_sanitize_idempotent (txt : String) :
    clean_csv_text (clean_csv_text txt) = clean_csv_text txt := by
  rw [show clean_csv_text (clean_csv_text txt) =
        ⟨joinNL ((pySplitlines (clean_csv_text txt).data).filter keepLine)⟩
      from rfl]
  rw [clean_lines txt]
  rw [List.filter_eq_self.mpr fun a ha => List.of_mem_filter ha]
  rfl

theorem digit_not_space (c : Char) (h : c.isDigit = true) :
    isSpaceChar c = false := by
  have hd : '0' ≤ c ∧ c ≤ '9' := by
    simpa [Char.isDigit, Bool.and_eq_true, decide_eq_true_eq] using h
  obtain ⟨h0, h9⟩ := hd
  cases hv : isSpaceChar c with
  | false => rfl
  | true =>
    exfalso
    simp only [isSpaceChar, Bool.or_eq_true, beq_iff_eq, Bool.and_eq_true,
      decide_eq_true_eq] at hv
    rcases hv with
      ((((((((((((((((((rfl|rfl)|rfl)|rfl)|rfl)|rfl)|rfl)|rfl)|rfl)|rfl)|rfl)|rfl)|rfl)|⟨h1,h2⟩)|rfl)|rfl)|rfl)|rfl)|rfl)
    all_goals first
      | exact absurd h9 (by decide)
      | exact absurd h0 (by decide)
      | exact absurd (le_trans h1 h9) (by decide)

theorem dchar_not_space (c : Char) (h : c.isDigit = true ∨ c = '.') :
    isSpaceChar c = false := by
  rcases h with h | rfl
  · exact digit_not_space c h
  · decide

theorem dchar_paren_num (c : Char) (h : c.isDigit = true ∨ c = '.') :
    isParenNumChar c = true := by
  rcases h with h | rfl
  · simp [isParenNumChar, h]
  · decide

theorem dchar_ne_of (c : Char) (h : c.isDigit = true ∨ c = '.') (x : Char)
    (hxd : x.isDigit = false) (hxp : x ≠ '.') : c ≠ x := by
  rintro rfl
  rcases h with h | h
  · rw [h] at hxd; cases hxd
  · exact hxp h

theorem dropWhile_all_false (p : Char → Bool) (l : List Char)
    (h : ∀ c ∈ l, p c = false) : l.dropWhile p = l := by
  cases l with
  | nil => rfl
  | cons a l =>
    apply List.dropWhile_cons_of_neg
    simp [h a (List.mem_cons_self _ _)]

theorem pyStripChars_nonspace (l : List Char)
    (h : ∀ c ∈ l, isSpaceChar c = false) : pyStripChars l = l := by
  unfold pyStripChars
  rw [dropWhile_all_false _ _ h,
    dropWhile_all_false _ _ fun c hc => h c (List.mem_reverse.mp hc),
    List.reverse_reverse]

theorem takeWhile_append_one (p : Char → Bool) (l : List Char) (a : Char)
    (hl : ∀ c ∈ l, p c = true) (ha : p a = false) :
    (l ++ [a]).takeWhile p = l := by
  induction l with
  | nil => simp [List.takeWhile, ha]
  | cons c l ih =>
    rw [List.cons_append, List.takeWhile_cons_of_pos (hl c (List.mem_cons_self _ _)),
      ih fun x hx => hl x (List.mem_cons_of_mem _ hx)]

theorem dropWhile_append_one (p : Char → Bool) (l : List Char) (a : Char)
    (hl : ∀ c ∈ l, p c = true) (ha : p a = false) :
    (l ++ [a]).dropWhile p = [a] := by
  induction l with
  | nil => simp [List.dropWhile, ha]
  | cons c l ih =>
    rw [List.cons_append, List.dropWhile_cons_of_pos (hl c (List.mem_cons_self _ _)),
      ih fun x hx => hl x (List.mem_cons_of_mem _ hx)]

theorem parenMatchChars_exact (d : List Char) (hne : d ≠ [])
    (hD : ∀ c ∈ d, c.isDigit = true ∨ c = '.') :
    parenMatchChars ('(' :: (d ++ [')'])) = some d := by
  obtain ⟨c0, d', rfl⟩ : ∃ c0 d', d = c0 :: d' := by
    cases d with
    | nil => exact absurd rfl hne
    | cons a b => exact ⟨a, b, rfl⟩
  have hc0 := hD c0 (List.mem_cons_self _ _)
  have hr1 : ((c0 :: d') ++ [')']).dropWhile isSpaceChar = (c0 :: d') ++ [')'] := by
    rw [List.cons_append]
    exact List.dropWhile_cons_of_neg (by simp [dchar_not_space c0 hc0])
  have hneD : c0 ≠ '$' := dchar_ne_of c0 hc0 '$' (by decide) (by decide)
  have htw : ((c0 :: d') ++ [')']).takeWhile isParenNumChar = c0 :: d' :=
    takeWhile_append_one _ _ _ (fun x hx => dchar_paren_num x (hD x hx)) (by decide)
  have hdw : ((c0 :: d') ++ [')']).dropWhile isParenNumChar = [')'] :=
    dropWhile_append_one _ _ _ (fun x hx => dchar_paren_num x (hD x hx)) (by decide)
  simp only [List.cons_append] at hr1 htw hdw
  simp [parenMatchChars, parenCore, hr1, htw, hdw, hneD]
  decide

theorem dchar_clean (c : Char) (h : c.isDigit = true ∨ c = '.') :
    (!(c == ',' || c == '$')) = true := by
  have h1 := dchar_ne_of c h ',' (by decide) (by decide)
  have h2 := dchar_ne_of c h '$' (by decide) (by decide)
  simp [h1, h2]

theorem normaliseAmountChars_paren (d : List Char) (hne : d ≠ [])
    (hD : ∀ c ∈ d, c.isDigit = true ∨ c = '.') :
    normaliseAmountChars ('(' :: (d ++ [')'])) = '-' :: d := by
  have hfacts : ∀ c ∈ '(' :: (d ++ [')']),
      (!(c == ',' || c == '$')) = true ∧ isSpaceChar c = false := by
    intro c hc
    rcases List.mem_cons.mp hc with rfl | hc
    · exact ⟨by decide, by decide⟩
    · rcases List.mem_append.mp hc with hc | hc
      · exact ⟨dchar_clean c (hD c hc), dchar_not_space c (hD c hc)⟩
      · have hcr : c = ')' := by simpa using hc
        subst hcr
        exact ⟨by decide, by decide⟩
  have hfil : (('(' :: (d ++ [')'])).filter fun c => !(c == ',' || c == '$')) =
      '(' :: (d ++ [')']) :=
    List.filter_eq_self.mpr fun c hc => (hfacts c hc).1
  have hstr : pyStripChars ('(' :: (d ++ [')'])) = '(' :: (d ++ [')']) :=
    pyStripChars_nonspace _ fun c hc => (hfacts c hc).2
  unfold normaliseAmountChars
  rw [hfil, hstr]
  simp [normaliseAmountCore, parenMatchChars_exact d hne hD]

theorem normaliseAmountChars_trailing (d : List Char) (hne : d ≠ [])
    (hD : ∀ c ∈ d, c.isDigit = true ∨ c = '.') :
    normaliseAmountChars (d ++ ['-']) = '-' :: d := by
  have hmem : ∀ c ∈ d ++ ['-'], (c.isDigit = true ∨ c = '.') ∨ c = '-' := by
    intro c hc
    rcases List.mem_append.mp hc with hc | hc
    · exact Or.inl (hD c hc)
    · exact Or.inr (by simpa using hc)
  have hfil : ((d ++ ['-']).filter fun c => !(c == ',' || c == '$')) =
      d ++ ['-'] := by
    apply List.filter_eq_self.mpr
    intro c hc
    rcases hmem c hc with h | rfl
    · exact dchar_clean c h
    · decide
  have hstr : pyStripChars (d ++ ['-']) = d ++ ['-'] := by
    apply pyStripChars_nonspace
    intro c hc
    rcases hmem c hc with h | rfl
    · exact dchar_not_space c h
    · decide
  have hpm : parenMatchChars (d ++ ['-']) = none := by
    obtain ⟨c0, d', rfl⟩ : ∃ c0 d', d = c0 :: d' := by
      cases d with
      | nil => exact absurd rfl hne
      | cons a b => exact ⟨a, b, rfl⟩
    have hc0 : c0 ≠ '(' :=
      dchar_ne_of c0 (hD c0 (List.mem_cons_self _ _)) '(' (by decide) (by decide)
    rw [List.cons_append]
    simp [parenMatchChars, hc0]
  have hstrd : pyStripChars d = d :=
    pyStripChars_nonspace _ fun c hc => dchar_not_space c (hD c hc)
  unfold normaliseAmountChars
  rw [hfil, hstr]
  simp [normaliseAmountCore, hpm, List.getLast?_concat, List.dropLast_concat, hstrd]

/-- C5: `normalise_amount` converts a parenthesized digit-and-dot numeral to
the numeral with a leading `-`, moves a trailing `-` to the front, and
strips commas, `$` and whitespace; concretely
`normalise_amount "(1,234.56)" = "-1234.56"`,
`normalise_amount "45.00-" = "-45.00"`, `normalise_amount "$2,000" = "2000"`. -/
theorem c5_amount_roundtrip (D : String) (hne : D ≠ "")
    (hD : ∀ c ∈ D.data, c.isDigit = true ∨ c = '.') :
    normalise_amount ("(" ++ D ++ ")") = "-" ++ D ∧
    normalise_amount (D ++ "-") = "-" ++ D ∧
    normalise_amount "(1,234.56)" = "-1234.56" ∧
    normalise_amount "45.00-" = "-45.00" ∧
    normalise_amount "$2,000" = "2000" := by
  have hdne : D.data ≠ [] := by
    intro h
    apply hne
    cases D with
    | mk l =>
      simp only [String.data] at h
      subst h
      rfl
  refine ⟨?_, ?_, by decide, by decide, by decide⟩
  · apply String.ext
    show normaliseAmountChars ("(" ++ D ++ ")").data = ("-" ++ D).data
    rw [show ("(" ++ D ++ ")").data = '(' :: (D.data ++ [')']) by
        simp [String.data_append],
      show ("-" ++ D).data = '-' :: D.data by simp [String.data_append],
      normaliseAmountChars_paren D.data hdne hD]
  · apply String.ext
    show normaliseAmountChars (D ++ "-").data = ("-" ++ D).data
    rw [show (D ++ "-").data = D.data ++ ['-'] by simp [String.data_append],
      show ("-" ++ D).data = '-' :: D.data by simp [String.data_append],
      normaliseAmountChars_trailing D.data hdne hD]

theorem c5_amount_roundtrip_witness :
    normalise_amount ("(" ++ "4.50" ++ ")") = "-" ++ "4.50" ∧
    normalise_amount ("4.50" ++ "-") = "-" ++ "4.50" :=
  ⟨(c5_amount_roundtrip "4.50" (by decide) (by decide)).1,
   (c5_amount_roundtrip "4.50" (by decide) (by decide)).2.1⟩

theorem pyStripChars_sublist (l : List Char) :
    List.Sublist (pyStripChars l) l := by
  unfold pyStripChars
  have h1 : List.Sublist ((l.dropWhile isSpaceChar).reverse.dropWhile isSpaceChar)
      (l.dropWhile isSpaceChar).reverse := List.dropWhile_sublist _
  have h2 := h1.reverse
  rw [List.reverse_reverse] at h2
  exact h2.trans (List.dropWhile_sublist _)

theorem parenCore_sublist (r2 num : List Char) (h : parenCore r2 = some num) :
    List.Sublist num r2 := by
  unfold parenCore at h
  split at h
  · simp at h
  · split at h
    · injection h with h
      subst h
      exact List.takeWhile_sublist _
    · simp at h

theorem parenMatchChars_sublist (l num : List Char)
    (h : parenMatchChars l = some num) : List.Sublist num l := by
  cases l with
  | nil => simp [parenMatchChars] at h
  | cons c rest =>
    by_cases hc : c = '('
    · subst hc
      have h' : parenCore
          (if (rest.dropWhile isSpaceChar).head? = some '$' then
            (rest.dropWhile isSpaceChar).tail
          else rest.dropWhile isSpaceChar) = some num := by
        simpa [parenMatchChars] using h
      have h1 := parenCore_sublist _ _ h'
      have h2 : List.Sublist
          (if (rest.dropWhile isSpaceChar).head? = some '$' then
            (rest.dropWhile isSpaceChar).tail
          else rest.dropWhile isSpaceChar)
          (rest.dropWhile isSpaceChar) := by
        split
        · exact List.tail_sublist _
        · exact List.Sublist.refl _
      exact ((h1.trans h2).trans (List.dropWhile_sublist _)).trans
        (List.sublist_cons_self _ _)
    · simp [parenMatchChars, hc] at h

theorem normaliseAmountCore_noSym (t : List Char)
    (base : ∀ x ∈ t, (!(x == ',' || x == '$')) = true) :
    ∀ c ∈ normaliseAmountCore t, (!(c == ',' || c == '$')) = true := by
  intro c hc
  cases hpm : parenMatchChars t with
  | some num =>
    have he : normaliseAmountCore t = '-' :: num := by
      unfold normaliseAmountCore
      rw [hpm]
    rw [he] at hc
    rcases List.mem_cons.mp hc with rfl | hc
    · decide
    · exact base c ((parenMatchChars_sublist t num hpm).subset hc)
  | none =>
    have he : normaliseAmountCore t =
        if t.getLast? = some '-' then '-' :: pyStripChars t.dropLast else t := by
      unfold normaliseAmountCore
      rw [hpm]
    rw [he] at hc
    split at hc
    · rcases List.mem_cons.mp hc with rfl | hc
      · decide
      · exact base c ((List.dropLast_sublist _).subset
          ((pyStripChars_sublist _).subset hc))
    · exact base c hc

theorem normaliseAmountChars_noSym (raw : List Char) :
    ∀ c ∈ normaliseAmountChars raw, (!(c == ',' || c == '$')) = true := by
  intro c hc
  refine normaliseAmountCore_noSym _ ?_ c hc
  intro x hx
  exact (List.mem_filter.mp ((pyStripChars_sublist _).subset hx)).2

/-- C1 (amended): every Transaction Row emitted by `robust_parse` has an
amount string containing no comma and no dollar sign (the best-effort
cleaned string); non-numeric raw amounts may still surface other
characters verbatim. -/
theorem c1_amount_cleaned (text : String) (y : Int) (rows : List TxRow)
    (row : TxRow) (hok : robust_parse text y = Except.ok rows)
    (hmem : row ∈ rows) : amountNoSym row.amount = true := by
  unfold robust_parse at hok
  cases hcr : csvReader (clean_csv_text text) with
  | error e =>
    rw [hcr] at hok
    simp at hok
  | ok records =>
    rw [hcr] at hok
    simp only [Except.ok.injEq] at hok
    subst hok
    obtain ⟨rec, hrec, hpr⟩ := List.mem_filterMap.mp hmem
    cases rec with
    | nil => simp [processRecord] at hpr
    | cons first rest =>
      simp only [processRecord] at hpr
      split at hpr
      · simp at hpr
      · split at hpr
        · simp at hpr
        · split at hpr
          · simp at hpr
          · injection hpr with hpr
            subst hpr
            unfold amountNoSym
            apply List.all_eq_true.mpr
            intro c hc
            exact normaliseAmountChars_noSym _ c hc

theorem c1_amount_cleaned_witness :
    amountNoSym (⟨"01/02/2023", "x", "4.50"⟩ : TxRow).amount = true :=
  c1_amount_cleaned "01/02/2023,x,4.50" 2023 [⟨"01/02/2023", "x", "4.50"⟩]
    ⟨"01/02/2023", "x", "4.50"⟩ rfl (List.mem_singleton.mpr rfl)

theorem digitChar_isDigit (k : Nat) (h : k < 10) :
    (Nat.digitChar k).isDigit = true := by
  interval_cases k <;> decide

theorem formatDate_matches (dt : PyDate) :
    matchesMMDDYYYY (formatDate dt) = true := by
  have h : ∀ n : Nat, (Nat.digitChar (n % 10)).isDigit = true :=
    fun n => digitChar_isDigit _ (Nat.mod_lt _ (by decide))
  simp [matchesMMDDYYYY, formatDate, pad2, pad4, h]

theorem normalise_date_cases (raw : String) (y : Int) :
    normalise_date raw y = "" ∨ ∃ dt, normalise_date raw y = formatDate dt := by
  unfold normalise_date
  split
  · exact Or.inl rfl
  · split
    · cases hdp : dateutilParse
          ((pyStripChars raw.data).map fun c => if isDashVariant c then '/' else c)
          ⟨y.toNat, 1, 1⟩ with
      | none => exact Or.inl rfl
      | some dt => exact Or.inr ⟨dt, rfl⟩
    · exact Or.inl rfl

/-- C6: `normalise_date` fills missing date components (notably a missing
year, but also month and day) from `defaultYear-01-01`, formats every
successful parse as `MM/DD/YYYY`, and returns `""` when the trimmed input is
empty or parsing fails: `normalise_date "03/15" 2023 = "03/15/2023"`,
`normalise_date "" 2023 = ""`, `normalise_date "not a date" 2023 = ""`,
`normalise_date "2024" 2023 = "01/01/2024"`, and every non-empty result
matches the `MM/DD/YYYY` shape. -/
theorem c6_date_normalization :
    normalise_date "03/15" 2023 = "03/15/2023" ∧
    normalise_date "" 2023 = "" ∧
    normalise_date "not a date" 2023 = "" ∧
    normalise_date "2024" 2023 = "01/01/2024" ∧
    ∀ (raw : String) (y : Int), normalise_date raw y ≠ "" →
      matchesMMDDYYYY (normalise_date raw y) = true := by
  refine ⟨by decide, rfl, by decide, by decide, ?_⟩
  intro raw y h
  rcases normalise_date_cases raw y with he | ⟨dt, he⟩
  · exact absurd he h
  · rw [he]
    exact formatDate_matches dt

theorem c6_date_normalization_witness :
    normalise_date "03/15" 2023 ≠ "" ∧
    matchesMMDDYYYY (normalise_date "03/15" 2023) = true :=
  ⟨by decide, c6_date_normalization.2.2.2.2 "03/15" 2023 (by decide)⟩

theorem csvStartField_ok (cfg : CsvCfg) (c : Char) (hcr : c ≠ '\r')
    (hf : cfg.field.length < csvFieldLimit) :
    ∃ cfg2, csvStartField cfg c = Except.ok cfg2 ∧
      cfg2.st ≠ CsvState.eatCrnl ∧
      cfg2.field.length ≤ cfg.field.length + 1 := by
  unfold csvStartField
  by_cases h1 : c = '\n'
  · rw [if_pos h1]
    exact ⟨_, rfl, by simp [csvEmit, csvSave], by simp [csvEmit, csvSave]⟩
  · rw [if_neg h1, if_neg hcr]
    by_cases h3 : c = '"'
    · rw [if_pos h3]
      exact ⟨_, rfl, by simp, by simp⟩
    · rw [if_neg h3]
      by_cases h4 : c = ','
      · rw [if_pos h4]
        exact ⟨_, rfl, by simp [csvSave], by simp [csvSave]⟩
      · rw [if_neg h4]
        unfold csvAddChar
        rw [if_neg (by omega)]
        exact ⟨_, rfl, by simp, by simp⟩

theorem csvStepChar_ok (cfg : CsvCfg) (c : Char) (hcr : c ≠ '\r')
    (hst : cfg.st ≠ CsvState.eatCrnl)
    (hf : cfg.field.length < csvFieldLimit) :
    ∃ cfg2, csvStepChar cfg c = Except.ok cfg2 ∧
      cfg2.st ≠ CsvState.eatCrnl ∧
      cfg2.field.length ≤ cfg.field.length + 1 := by
  rw [show csvStepChar cfg c = csvStepOn cfg.st cfg c from rfl]
  cases hs : cfg.st with
  | eatCrnl => exact absurd hs hst
  | startRecord =>
    simp only [csvStepOn]
    by_cases h1 : c = '\n'
    · rw [if_pos h1]
      exact ⟨_, rfl, by simp [csvEmit], by simp [csvEmit]⟩
    · rw [if_neg h1, if_neg hcr]
      exact csvStartField_ok { cfg with st := .startField } c hcr hf
  | startField =>
    simp only [csvStepOn]
    exact csvStartField_ok cfg c hcr hf
  | inField =>
    simp only [csvStepOn]
    by_cases h1 : c = '\n'
    · rw [if_pos h1]
      exact ⟨_, rfl, by simp [csvEmit, csvSave], by simp [csvEmit, csvSave]⟩
    · rw [if_neg h1, if_neg hcr]
      by_cases h4 : c = ','
      · rw [if_pos h4]
        exact ⟨_, rfl, by simp [csvSave], by simp [csvSave]⟩
      · rw [if_neg h4]
        unfold csvAddChar
        rw [if_neg (by omega)]
        exact ⟨_, rfl, by simp, by simp⟩
  | inQuoted =>
    simp only [csvStepOn]
    by_cases h1 : c = '"'
    · rw [if_pos h1]
      exact ⟨_, rfl, by simp, by simp⟩
    · rw [if_neg h1]
      unfold csvAddChar
      rw [if_neg (by omega)]
      exact ⟨_, rfl, by simp, by simp⟩
  | quoteInQuoted =>
    simp only [csvStepOn]
    by_cases h1 : c = '"'
    · rw [if_pos h1]
      unfold csvAddChar
      rw [if_neg (by omega)]
      exact ⟨_, rfl, by simp, by simp⟩
    · rw [if_neg h1]
      by_cases h4 : c = ','
      · rw [if_pos h4]
        exact ⟨_, rfl, by simp [csvSave], by simp [csvSave]⟩
      · rw [if_neg h4]
        by_cases h5 : c = '\n'
        · rw [if_pos h5]
          exact ⟨_, rfl, by simp [csvEmit, csvSave], by simp [csvEmit, csvSave]⟩
        · rw [if_neg h5, if_neg hcr]
          unfold csvAddChar
          rw [if_neg (by omega)]
          exact ⟨_, rfl, by simp, by simp⟩

theorem csvRun_ok (l : List Char) :
    ∀ cfg : CsvCfg, (∀ c ∈ l, c ≠ '\u0000') → (∀ c ∈ l, c ≠ '\r') →
      cfg.st ≠ CsvState.eatCrnl →
      cfg.field.length + l.length ≤ csvFieldLimit →
      ∃ rows, csvRun cfg l = Except.ok rows := by
  induction l with
  | nil => exact fun cfg _ _ _ _ => ⟨csvFlush cfg, rfl⟩
  | cons c rest ih =>
    intro cfg hnul hcr hst hlen
    have hc0 : c ≠ '\u0000' := hnul c (List.mem_cons_self _ _)
    have hcr0 : c ≠ '\r' := hcr c (List.mem_cons_self _ _)
    have hf : cfg.field.length < csvFieldLimit := by
      simp only [List.length_cons] at hlen
      omega
    obtain ⟨cfg2, he, h1, h2⟩ := csvStepChar_ok cfg c hcr0 hst hf
    have hrun : csvRun cfg (c :: rest) = csvRun cfg2 rest := by
      simp [csvRun, hc0, he]
    rw [hrun]
    refine ih cfg2 (fun x hx => hnul x (List.mem_cons_of_mem _ hx))
      (fun x hx => hcr x (List.mem_cons_of_mem _ hx)) h1 ?_
    simp only [List.length_cons] at hlen
    omega

theorem joinNL_chars (ls : List (List Char)) :
    ∀ c ∈ joinNL ls, c = '\n' ∨ ∃ l ∈ ls, c ∈ l := by
  induction ls with
  | nil => simp [joinNL]
  | cons l ls ih =>
    cases ls with
    | nil =>
      intro c hc
      exact Or.inr ⟨l, by simp, by simpa [joinNL] using hc⟩
    | cons l2 ls2 =>
      intro c hc
      rw [show joinNL (l :: l2 :: ls2) = l ++ '\n' :: joinNL (l2 :: ls2)
        from rfl] at hc
      rcases List.mem_append.mp hc with hc | hc
      · exact Or.inr ⟨l, List.mem_cons_self _ _, hc⟩
      · rcases List.mem_cons.mp hc with rfl | hc
        · exact Or.inl rfl
        · rcases ih c hc with h | ⟨l', hl', hc'⟩
          · exact Or.inl h
          · exact Or.inr ⟨l', List.mem_cons_of_mem _ hl', hc'⟩

theorem splitlinesGo_piece_subset (l : List Char) :
    ∀ (cur : List Char) (b : Bool), ∀ piece ∈ splitlinesGo l cur b,
      ∀ c ∈ piece, c ∈ l ∨ c ∈ cur := by
  induction l with
  | nil =>
    intro cur b piece hp c hc
    rw [splitlinesGo_nil] at hp
    by_cases h0 : cur = []
    · simp [h0] at hp
    · rw [if_neg h0, List.mem_singleton] at hp
      subst hp
      exact Or.inr (List.mem_reverse.mp hc)
  | cons d rest ih =>
    intro cur b piece hp c hc
    have step : ∀ cur2 b2, piece ∈ splitlinesGo rest cur2 b2 →
        (∀ x ∈ cur2, x ∈ (d :: rest) ∨ x ∈ cur) → c ∈ d :: rest ∨ c ∈ cur := by
      intro cur2 b2 hp2 hcur2
      rcases ih cur2 b2 piece hp2 c hc with h | h
      · exact Or.inl (List.mem_cons_of_mem _ h)
      · exact hcur2 c h
    by_cases hdn : d = '\n'
    · subst hdn
      cases b with
      | true =>
        rw [splitlinesGo_nl_cr] at hp
        exact step [] false hp (by simp)
      | false =>
        rw [splitlinesGo_nl, List.mem_cons] at hp
        rcases hp with rfl | hp
        · exact Or.inr (List.mem_reverse.mp hc)
        · exact step [] false hp (by simp)
    · by_cases hdr : d = '\r'
      · subst hdr
        rw [splitlinesGo_cr, List.mem_cons] at hp
        rcases hp with rfl | hp
        · exact Or.inr (List.mem_reverse.mp hc)
        · exact step [] true hp (by simp)
      · by_cases hdb : isBreakChar d = true
        · rw [splitlinesGo_break d rest cur b hdn hdr hdb, List.mem_cons] at hp
          rcases hp with rfl | hp
          · exact Or.inr (List.mem_reverse.mp hc)
          · exact step [] false hp (by simp)
        · have hdb' : isBreakChar d = false := by
            cases hv : isBreakChar d with
            | true => exact absurd hv hdb
            | false => rfl
          rw [splitlinesGo_plain d rest cur b hdb'] at hp
          refine step (d :: cur) false hp ?_
          intro x hx
          rcases List.mem_cons.mp hx with rfl | hx
          · exact Or.inl (List.mem_cons_self _ _)
          · exact Or.inr hx

theorem clean_chars (text : String) :
    ∀ c ∈ (clean_csv_text text).data, c = '\n' ∨ c ∈ text.data := by
  intro c hc
  rcases joinNL_chars _ c hc with h | ⟨l, hl, hcl⟩
  · exact Or.inl h
  · right
    have hl' : l ∈ pySplitlines text.data := List.mem_of_mem_filter hl
    rcases splitlinesGo_piece_subset text.data [] false l hl' c hcl with h | h
    · exact h
    · simp at h

theorem clean_no_cr (text : String) :
    ∀ c ∈ (clean_csv_text text).data, c ≠ '\r' := by
  intro c hc
  rcases joinNL_chars _ c hc with rfl | ⟨l, hl, hcl⟩
  · decide
  · have hnb := pySplitlines_piece_nonbreak text.data l
      (List.mem_of_mem_filter hl) c hcl
    rintro rfl
    simp [isBreakChar] at hnb

theorem joinNL_length (ls : List (List Char)) :
    (joinNL ls).length ≤ (ls.map List.length).sum + ls.length := by
  induction ls with
  | nil => simp [joinNL]
  | cons l ls ih =>
    cases ls with
    | nil => simp [joinNL]
    | cons l2 ls2 =>
      rw [show joinNL (l :: l2 :: ls2) = l ++ '\n' :: joinNL (l2 :: ls2)
        from rfl]
      simp only [List.length_append, List.length_cons, List.map_cons,
        List.sum_cons] at ih ⊢
      omega

theorem splitlinesGo_length (l : List Char) :
    ∀ (cur : List Char) (b : Bool),
      ((splitlinesGo l cur b).map List.length).sum +
        (splitlinesGo l cur b).length ≤ l.length + cur.length + 1 := by
  induction l with
  | nil =>
    intro cur b
    rw [splitlinesGo_nil]
    by_cases h0 : cur = []
    · simp [h0]
    · rw [if_neg h0]
      simp
  | cons d rest ih =>
    intro cur b
    by_cases hdn : d = '\n'
    · subst hdn
      cases b with
      | true =>
        rw [splitlinesGo_nl_cr]
        have := ih [] false
        simp only [List.length_nil, List.length_cons] at this ⊢
        omega
      | false =>
        rw [splitlinesGo_nl]
        have := ih [] false
        simp only [List.map_cons, List.sum_cons, List.length_reverse,
          List.length_cons, List.length_nil] at this ⊢
        omega
    · by_cases hdr : d = '\r'
      · subst hdr
        rw [splitlinesGo_cr]
        have := ih [] true
        simp only [List.map_cons, List.sum_cons, List.length_reverse,
          List.length_cons, List.length_nil] at this ⊢
        omega
      · by_cases hdb : isBreakChar d = true
        · rw [splitlinesGo_break d rest cur b hdn hdr hdb]
          have := ih [] false
          simp only [List.map_cons, List.sum_cons, List.length_reverse,
            List.length_cons, List.length_nil] at this ⊢
          omega
        · have hdb' : isBreakChar d = false := by
            cases hv : isBreakChar d with
            | true => exact absurd hv hdb
            | false => rfl
          rw [splitlinesGo_plain d rest cur b hdb']
          have := ih (d :: cur) false
          simp only [List.length_cons] at this ⊢
          omega

theorem filter_length_sum (p : List Char → Bool) (ls : List (List Char)) :
    ((ls.filter p).map List.length).sum + (ls.filter p).length ≤
      (ls.map List.length).sum + ls.length := by
  induction ls with
  | nil => simp
  | cons l ls ih =>
    by_cases h : p l = true
    · rw [List.filter_cons_of_pos h]
      simp only [List.map_cons, List.sum_cons, List.length_cons]
      omega
    · rw [List.filter_cons_of_neg (by simp [h])]
      simp only [List.map_cons, List.sum_cons, List.length_cons]
      omega

theorem clean_length (text : String) :
    (clean_csv_text text).data.length ≤ text.data.length + 1 := by
  have h1 := joinNL_length ((pySplitlines text.data).filter keepLine)
  have h2 := filter_length_sum keepLine (pySplitlines text.data)
  have h3 : ((pySplitlines text.data).map List.length).sum +
      (pySplitlines text.data).length ≤ text.data.length + 1 := by
    have := splitlinesGo_length text.data [] false
    simpa [pySplitlines] using this
  have h4 : (clean_csv_text text).data.length =
      (joinNL ((pySplitlines text.data).filter keepLine)).length := rfl
  omega

theorem processRecord_short (y : Int) (row : List String)
    (h : row.length < 3) : processRecord y row = none := by
  cases row with
  | nil => rfl
  | cons first rest =>
    have hlen : rest.length + 1 < 3 := by simpa using h
    simp [processRecord, hlen]

/-- C8 (amended): for every input string without NUL characters and shorter
than the csv field-size limit, and every default year, `robust_parse`
returns a result and never raises; records with fewer than 3 fields are
silently dropped (as are records with failing dates, per the `filterMap`
structure); `robust_parse "" y` returns the empty row sequence. -/
theorem c8_no_raise (text : String) (y : Int)
    (h0 : ∀ c ∈ text.data, c ≠ '\u0000')
    (h1 : text.data.length < csvFieldLimit) :
    (robust_parse text y).isOk = true ∧
    (∀ row : List String, row.length < 3 → processRecord y row = none) ∧
    robust_parse "" y = Except.ok [] := by
  refine ⟨?_, fun row h => processRecord_short y row h, rfl⟩
  have hnn : ∀ c ∈ (clean_csv_text text).data, c ≠ '\u0000' := by
    intro c hc
    rcases clean_chars text c hc with rfl | h
    · decide
    · exact h0 c h
  have hlen : (clean_csv_text text).data.length ≤ csvFieldLimit := by
    have := clean_length text
    omega
  obtain ⟨rows0, hr⟩ := csvRun_ok (clean_csv_text text).data
    ⟨.startRecord, [], [], []⟩ hnn (clean_no_cr text) (by simp) (by simpa using hlen)
  unfold robust_parse
  rw [show csvReader (clean_csv_text text) =
      csvRun ⟨.startRecord, [], [], []⟩ (clean_csv_text text).data from rfl, hr]
  rfl

theorem c8_no_raise_witness :
    (robust_parse "a,b\u0001,c" 2023).isOk = true ∧
    robust_parse "" 2023 = Except.ok [] :=
  ⟨(c8_no_raise "a,b\u0001,c" 2023 (by decide) (by decide)).1,
   (c8_no_raise "a,b\u0001,c" 2023 (by decide) (by decide)).2.2⟩
